import Mathlib

/-!
Shallow embedding of the synchronization engine of `attendance-api`
(src/main.py).  The Postgres tables created in `startup` are modelled as
lists of rows, the push/pull HTTP handlers as pure functions on those lists,
and the version-gated SQL upserts
(`INSERT ... ON CONFLICT ... DO UPDATE ... WHERE stored.version <
EXCLUDED.version`) as list transformations executed left to right, the order
`psycopg2.extras.execute_batch` uses.

Modelling conventions:
* SQL `TIMESTAMP` values are `Nat`, `INTEGER` columns are `Int`, nullable
  columns are `Option`; a JSON value that is absent or `null` is `none`
  (Python's `dict.get` returns `None` in both cases).
* `id SERIAL` surrogate keys and the `sync_pending` column (read and written
  by no handler) are omitted from the row types.
* `datetime.fromisoformat` / `datetime.strptime` are Python-stdlib
  collaborators; they appear as an explicit `parse` function argument.
* `strftime("%a")` (C locale) is implemented directly via Sakamoto's
  day-of-week algorithm over the parsed Gregorian date.
-/

namespace AttendanceApi

/-- A row of the `students` table (src/main.py, `startup`).  `sbrn` is the
`PRIMARY KEY`; every other column is nullable except the sync bookkeeping
columns, whose defaults (`version` 1, `is_deleted` 0) are applied by
`normalizeStudent` on every push. -/
structure Student where
  sbrn : String
  name : Option String
  department : Option String
  semester : Option String
  «section» : Option String
  course : Option String
  batch : Option String
  admission_date : Option String
  year_semester : Option String
  academic_status : Option String
  last_updated : Nat
  version : Int
  is_deleted : Int
  deleted_at : Option Nat
  deriving DecidableEq, Repr

/-- A raw JSON object posted to `POST /sync/students`: every field may be
absent or `null`. -/
structure StudentIn where
  sbrn : Option String
  name : Option String
  department : Option String
  semester : Option String
  «section» : Option String
  course : Option String
  batch : Option String
  admission_date : Option String
  year_semester : Option String
  academic_status : Option String
  last_updated : Option Nat
  version : Option Int
  is_deleted : Option Int
  deleted_at : Option Nat
  deriving DecidableEq, Repr

/-- The record normalization loop of `sync_students` (src/main.py): a record
whose `sbrn` is falsy (absent, `null`, or the empty string) is skipped;
otherwise defaults are applied: `academic_status` `"REGULAR"`, `last_updated`
`datetime.utcnow()` (the `now` argument), `version` 1, `is_deleted` 0. -/
def normalizeStudent (now : Nat) (r : StudentIn) : Option Student :=
  match r.sbrn with
  | none => none
  | some s =>
    if s = "" then none
    else
      some
        { sbrn := s
          name := r.name
          department := r.department
          semester := r.semester
          «section» := r.«section»
          course := r.course
          batch := r.batch
          admission_date := r.admission_date
          year_semester := r.year_semester
          academic_status := some (r.academic_status.getD "REGULAR")
          last_updated := r.last_updated.getD now
          version := r.version.getD 1
          is_deleted := r.is_deleted.getD 0
          deleted_at := r.deleted_at }

/-- One versioned SQL upsert,
`INSERT ... ON CONFLICT (key) DO UPDATE SET <all synced columns> WHERE
stored.version < EXCLUDED.version`:
if no row carries the incoming key the row is inserted; otherwise the
conflicting row is replaced by the incoming one exactly when its stored
version is strictly smaller (for the timetable upsert the `DO UPDATE` list
omits the key columns, but those are equal on a conflict, so whole-row
replacement is the same update). -/
def upsertVersioned {α κ : Type} [DecidableEq κ] (key : α → κ) (ver : α → Int)
    (db : List α) (r : α) : List α :=
  if ∃ s ∈ db, key s = key r then
    db.map fun s => if key s = key r ∧ ver s < ver r then r else s
  else
    db ++ [r]

/-- The `students` upsert of `sync_students`, keyed on the `sbrn` primary
key. -/
def upsertStudent : List Student → Student → List Student :=
  upsertVersioned Student.sbrn Student.version

/-- Responses of the push handlers: `{"status": "no_data"}`,
`{"status": "no_valid_records"}`, `{"status": "success", "rows_processed": n}`
(all HTTP 200), or a raised `HTTPException(code)`. -/
inductive SyncResp where
  | noData
  | noValidRecords
  | success (rowsProcessed : Nat)
  | error (code : Nat)
  deriving DecidableEq, Repr

/-- Whether a push response is a raised error rather than a 200 status
body. -/
def SyncResp.isError : SyncResp → Bool
  | .error _ => true
  | _ => false

/-- `POST /sync/students` (src/main.py `sync_students`): empty batch returns
`no_data`; records with a falsy `sbrn` are dropped; if nothing survives,
`no_valid_records`; otherwise each normalized record is applied by the
version-gated upsert in batch order and the handler reports
`rows_processed = len(normalized)`. -/
def syncStudents (now : Nat) (records : List StudentIn) (db : List Student) :
    List Student × SyncResp :=
  if records = [] then (db, .noData)
  else
    let normalized := records.filterMap (normalizeStudent now)
    if normalized = [] then (db, .noValidRecords)
    else (normalized.foldl upsertStudent db, .success normalized.length)

/-- A row of the `timetable_slots` table (src/main.py, `startup`).  The five
`NOT NULL` identity columns `(department, semester, section, day, period_no)`
form the upsert key declared by `sync_timetable`'s `ON CONFLICT` clause.
`last_updated` and `version` follow the `TimetableSyncRecord` model
(src/models.py), where both are required fields. -/
structure TimetableSlot where
  department : String
  semester : String
  «section» : String
  day : String
  period_no : Int
  period_len : Option Int
  type : Option String
  subject_id : Option String
  faculty_id : Option String
  room : Option String
  last_updated : Nat
  version : Int
  deriving DecidableEq, Repr

/-- The composite identity of a timetable slot, the `ON CONFLICT
(department, semester, section, day, period_no)` target of
`sync_timetable`. -/
def TimetableSlot.slotKey (t : TimetableSlot) :
    String × String × String × String × Int :=
  (t.department, t.semester, t.«section», t.day, t.period_no)

/-- A raw JSON object posted to `POST /sync/timetable`: the handler binds the
dict values straight into the SQL parameters, so any of the five `NOT NULL`
identity columns may be absent or `null`; such a record makes the `INSERT`
raise (missing parameter or `NOT NULL` violation) and the whole batch roll
back. -/
structure TimetableIn where
  department : Option String
  semester : Option String
  «section» : Option String
  day : Option String
  period_no : Option Int
  period_len : Option Int
  type : Option String
  subject_id : Option String
  faculty_id : Option String
  room : Option String
  last_updated : Nat
  version : Int
  deriving DecidableEq, Repr

/-- The stored row a pushed timetable record produces, defined exactly when
all five `NOT NULL` identity columns are present (otherwise the statement
raises and the batch fails). -/
def TimetableIn.toSlot (r : TimetableIn) : Option TimetableSlot :=
  match r.department, r.semester, r.«section», r.day, r.period_no with
  | some dept, some sem, some sec, some day, some pno =>
    some
      { department := dept
        semester := sem
        «section» := sec
        day := day
        period_no := pno
        period_len := r.period_len
        type := r.type
        subject_id := r.subject_id
        faculty_id := r.faculty_id
        room := r.room
        last_updated := r.last_updated
        version := r.version }
  | _, _, _, _, _ => none

/-- The `timetable_slots` upsert of `sync_timetable`, keyed on the composite
slot identity. -/
def upsertSlot : List TimetableSlot → TimetableSlot → List TimetableSlot :=
  upsertVersioned TimetableSlot.slotKey TimetableSlot.version

/-- A row of the `subjects` table (src/main.py, `startup`); its composite
`PRIMARY KEY` is `(subject_id, semester, department)`, so those three columns
are non-null. -/
structure Subject where
  subject_id : String
  subject_name : String
  department : String
  semester : String
  type : Option String
  deriving DecidableEq, Repr

/-- The `(subject_id, semester, department)` primary key of a catalog
entry. -/
def Subject.pk (s : Subject) : String × String × String :=
  (s.subject_id, s.semester, s.department)

/-- The auto-heal statement run after a timetable sync (and at startup):
`INSERT INTO subjects SELECT DISTINCT subject_id, subject_id, department,
semester, type FROM timetable_slots WHERE subject_id IS NOT NULL ON CONFLICT
DO NOTHING`.  Each slot with a non-null subject is offered as a catalog entry
whose display name is the subject identifier itself; entries whose primary
key is already present are left untouched.  (`DISTINCT` plus `DO NOTHING`
collapse duplicates per primary key; which duplicate supplies the non-key
`type` column is unspecified in SQL and modelled as first-in-table-order.)
`subjectStep` is one candidate insertion. -/
def subjectStep (acc : List Subject) (slot : TimetableSlot) : List Subject :=
  match slot.subject_id with
  | none => acc
  | some sid =>
    if ∃ e ∈ acc, e.pk = (sid, slot.semester, slot.department) then acc
    else acc ++ [{ subject_id := sid, subject_name := sid,
                   department := slot.department,
                   semester := slot.semester, type := slot.type }]

/-- The auto-heal statement folded over the timetable rows. -/
def autoHealSubjects (subs : List Subject) (tt : List TimetableSlot) :
    List Subject :=
  tt.foldl subjectStep subs

/-- The slice of authoritative state `POST /sync/timetable` touches: the
timetable collection and its derived subjects catalog. -/
structure TTState where
  timetable : List TimetableSlot
  subjects : List Subject
  deriving DecidableEq, Repr

/-- Storage-failure injection points for `sync_timetable`: the handler issues
`execute_batch` + `conn.commit()` for the timetable rows and only then the
auto-heal insert + a second `conn.commit()`, so a failure in the second step
rolls back only the (uncommitted) auto-heal work. -/
inductive TTFail where
  | noFail
  | duringBatch
  | duringAutoHeal
  deriving DecidableEq, Repr

/-- `POST /sync/timetable` (src/main.py `sync_timetable`) with an explicit
storage-failure injection point.  Empty batch returns `no_data`; a record
missing any `NOT NULL` identity column makes the batch raise and roll back
(there is no per-record validation); otherwise the version-gated upserts are
applied in batch order and committed, then the subjects auto-heal runs over
the updated timetable and is committed separately.  A failure before the
first commit leaves everything unchanged; a failure during the auto-heal
step leaves the already-committed timetable rows durable. -/
def syncTimetableRun (fail : TTFail) (records : List TimetableIn)
    (st : TTState) : TTState × SyncResp :=
  if records = [] then (st, .noData)
  else if fail = .duringBatch ∨ ¬ records.all (fun r => r.toSlot.isSome) then
    (st, .error 500)
  else
    let newTT :=
      (records.filterMap TimetableIn.toSlot).foldl upsertSlot st.timetable
    let st1 : TTState := { st with timetable := newTT }
    if fail = .duringAutoHeal then (st1, .error 500)
    else
      ({ st1 with subjects := autoHealSubjects st.subjects st1.timetable },
        .success records.length)

/-- `POST /sync/timetable` when storage does not fail. -/
def syncTimetable : List TimetableIn → TTState → TTState × SyncResp :=
  syncTimetableRun .noFail

/-- The JSON body of a pull response: `{"status": "success", "count": …,
"latest_sync": …, "records": …}`. -/
structure PullResp (α : Type) where
  count : Nat
  latest_sync : Option Nat
  records : List α
  deriving DecidableEq, Repr

/-- Outcome of a pull handler: a 200 response body or a raised
`HTTPException(code)`. -/
inductive PullOutcome (α : Type) where
  | ok (resp : PullResp α)
  | httpError (code : Nat)
  deriving DecidableEq, Repr

/-- The shared query of the three pull handlers: `SELECT … WHERE last_updated
> %s ORDER BY last_updated ASC` given a parsed watermark, or the same query
unbounded for a full sync.  `ORDER BY` is a stable ascending sort on the
`last_updated` column, modelled by insertion sort (stable and structurally
recursive, hence evaluable). -/
def pullRows {α : Type} (lm : α → Nat) (db : List α) (w : Option Nat) :
    List α :=
  match w with
  | some t =>
    List.insertionSort (fun a b => lm a ≤ lm b) (db.filter fun r => t < lm r)
  | none => List.insertionSort (fun a b => lm a ≤ lm b) db

/-- Response assembly shared by the pull handlers: `count = len(data)` and
`latest_sync = rows[-1].last_updated if rows else None` over the ordered
rows. -/
def mkPullResp {α : Type} (lm : α → Nat) (rows : List α) : PullResp α :=
  { count := rows.length
    latest_sync := rows.getLast?.map lm
    records := rows }

/-- The common shape of `sync_students_from_cloud`, `get_timetable_sync` and
`sync_attendance_from_cloud` (src/main.py): `parse` stands for
`datetime.fromisoformat`.  A missing or empty watermark parameter is falsy
and selects the full sync branch.  A supplied but unparsable watermark makes
the handler raise `HTTPException(400, …)` — but that raise sits inside the
enclosing `try` whose `except Exception` clause catches every `Exception`
(including `HTTPException`) and re-raises it as `HTTPException(500,
str(e))`, so the surfaced status code is 500. -/
def pullEndpoint {α : Type} (lm : α → Nat) (parse : String → Option Nat)
    (since : Option String) (db : List α) : PullOutcome α :=
  match since with
  | none => .ok (mkPullResp lm (pullRows lm db none))
  | some s =>
    if s = "" then .ok (mkPullResp lm (pullRows lm db none))
    else
      match parse s with
      | some t => .ok (mkPullResp lm (pullRows lm db (some t)))
      | none => .httpError 500

/-- `GET /sync/students` (src/main.py `sync_students_from_cloud`). -/
def syncStudentsFromCloud (parse : String → Option Nat)
    (since : Option String) (db : List Student) : PullOutcome Student :=
  pullEndpoint Student.last_updated parse since db

/-- `GET /sync/timetable` (src/main.py `get_timetable_sync`); its watermark
query parameter is named `last_sync`. -/
def getTimetableSync (parse : String → Option Nat) (lastSync : Option String)
    (db : List TimetableSlot) : PullOutcome TimetableSlot :=
  pullEndpoint TimetableSlot.last_updated parse lastSync db

/-- A row of the `attendance_daily` table (src/main.py, `startup`).  The
unique index `idx_attendance_unique` covers `(sbrn, subject, semester,
section, class_date)`.  The `subject` column is nullable in the DDL but every
write path supplies it, so it is modelled as required; `class_date` (a SQL
`DATE`) is modelled as its `"YYYY-MM-DD"` string. -/
structure AttRow where
  sbrn : String
  subject : String
  semester : String
  «section» : String
  class_date : String
  attended : Int
  last_updated : Nat
  deriving DecidableEq, Repr

/-- The columns of the `idx_attendance_unique` unique index, the `ON
CONFLICT` target of `mark_attendance`. -/
def AttRow.attKey (a : AttRow) :
    String × String × String × String × String :=
  (a.sbrn, a.subject, a.semester, a.«section», a.class_date)

/-- `GET /sync/attendance` (src/main.py `sync_attendance_from_cloud`). -/
def syncAttendanceFromCloud (parse : String → Option Nat)
    (since : Option String) (db : List AttRow) : PullOutcome AttRow :=
  pullEndpoint AttRow.last_updated parse since db

/-- A parsed `"%Y-%m-%d"` Gregorian date, the result of
`datetime.strptime(data.date, "%Y-%m-%d")`. -/
structure Date where
  year : Nat
  month : Nat
  day : Nat
  deriving DecidableEq, Repr

/-- Day of week of a Gregorian date by Sakamoto's algorithm
(0 = Sunday … 6 = Saturday), the value underlying `strftime("%a")`. -/
def Date.dayOfWeek (d : Date) : Nat :=
  let t : List Nat := [0, 3, 2, 5, 0, 3, 5, 1, 4, 6, 2, 4]
  let y := if d.month < 3 then d.year - 1 else d.year
  (y + y / 4 - y / 100 + y / 400 + t.getD (d.month - 1) 0 + d.day) % 7

/-- `class_date.strftime("%a")` in the C locale: the three-letter English
weekday abbreviation. -/
def Date.dayShort (d : Date) : String :=
  ["Sun", "Mon", "Tue", "Wed", "Thu", "Fri", "Sat"].getD d.dayOfWeek ""

/-- SQL `LOWER(x)` / Python `str.lower()`: character-wise ASCII lowering,
written over `String.data` so that it evaluates by kernel reduction. -/
def lowerStr (s : String) : String := ⟨s.data.map Char.toLower⟩

/-- SQL `TRIM(x)`: strip leading and trailing spaces, written over
`String.data` so that it evaluates by kernel reduction. -/
def trimSpaces (s : String) : String :=
  ⟨((s.data.dropWhile (· = ' ')).reverse.dropWhile (· = ' ')).reverse⟩

/-- `LOWER(TRIM(x))`, the normalization the timetable-match queries apply to
both sides of every comparison. -/
def nrm (s : String) : String := lowerStr (trimSpaces s)

/-- The body of `models.StudentAttendance`. -/
structure StudentAttendance where
  sbrn : String
  present : Bool
  deriving DecidableEq, Repr

/-- The body of `models.AttendanceRequest` (the `override` field is declared
by the model but never read by `mark_attendance`). -/
structure AttendanceRequest where
  department : String
  semester : String
  «section» : String
  subject : String
  date : String
  attendance : List StudentAttendance
  override : Bool
  deriving DecidableEq, Repr

/-- The theory-case period check of `mark_attendance` (section `"all"`):
`LOWER(TRIM(·))`-insensitive equality on department, semester, subject and
day; a slot whose `subject_id` is SQL `NULL` never matches (`NULL = x` is not
true). -/
def slotMatchesTheory (req : AttendanceRequest) (day : String)
    (slot : TimetableSlot) : Bool :=
  nrm slot.department == nrm req.department &&
  nrm slot.semester == nrm req.semester &&
  (match slot.subject_id with
   | some sid => nrm sid == nrm req.subject
   | none => false) &&
  nrm slot.day == nrm day

/-- The practical-case period check of `mark_attendance`: the theory-case
columns plus the section. -/
def slotMatchesPractical (req : AttendanceRequest) (day : String)
    (slot : TimetableSlot) : Bool :=
  slotMatchesTheory req day slot && nrm slot.«section» == nrm req.«section»

/-- One attendance upsert of `mark_attendance`:
`INSERT INTO attendance_daily … ON CONFLICT (sbrn, subject, semester,
section, class_date) DO UPDATE SET attended = EXCLUDED.attended,
last_updated = CURRENT_TIMESTAMP`.  A row at the key always has its
`attended` value replaced and its `last_updated` reset; absent the key, a
fresh row is inserted (its `last_updated` takes the `CURRENT_TIMESTAMP`
column default). -/
def upsertAttendance (att : List AttRow)
    (sbrn subject semester sec date : String) (attended : Int) (now : Nat) :
    List AttRow :=
  if ∃ a ∈ att, a.attKey = (sbrn, subject, semester, sec, date) then
    att.map fun a =>
      if a.attKey = (sbrn, subject, semester, sec, date) then
        { a with attended := attended, last_updated := now }
      else a
  else
    att ++ [{ sbrn := sbrn, subject := subject, semester := semester,
              «section» := sec, class_date := date, attended := attended,
              last_updated := now }]

/-- Responses of `POST /mark-attendance`: `{"status": "saved"}`,
`{"status": "no_period"}`, or a raised `HTTPException(code)`. -/
inductive MarkResp where
  | saved
  | noPeriod
  | error (code : Nat)
  deriving DecidableEq, Repr

/-- `POST /mark-attendance` (src/main.py `mark_attendance`): `parse` stands
for `datetime.strptime(·, "%Y-%m-%d")` (a `ValueError` is caught by the
handler's `except` clause and surfaced as a 500).  The request's section,
lowercased, selects the theory (`"all"`) or practical period check; if no
timetable slot matches, the handler returns `no_period` without touching the
attendance table; otherwise every record of the request is upserted
unconditionally — attendance rows carry no version counter, so there is no
version gate. -/
def markAttendance (parse : String → Option Date) (now : Nat)
    (req : AttendanceRequest) (tt : List TimetableSlot)
    (att : List AttRow) : List AttRow × MarkResp :=
  match parse req.date with
  | none => (att, .error 500)
  | some dt =>
    let day := dt.dayShort
    let sectionValue := lowerStr req.«section»
    let periodExists :=
      if sectionValue = "all" then tt.any (slotMatchesTheory req day)
      else tt.any (slotMatchesPractical req day)
    if periodExists then
      (req.attendance.foldl
        (fun acc rec =>
          upsertAttendance acc rec.sbrn req.subject req.semester
            req.«section» req.date (if rec.present then 1 else 0) now)
        att, .saved)
    else (att, .noPeriod)

/-- `DELETE /sync/timetable` (src/main.py `reset_timetable_from_desktop`):
`DELETE FROM timetable_slots WHERE LOWER(department)=LOWER(%s) AND
LOWER(semester)=LOWER(%s)` — physical row deletion, keeping only the rows
that do not match. -/
def resetTimetableFromDesktop (department semester : String)
    (tt : List TimetableSlot) : List TimetableSlot :=
  tt.filter fun s =>
    ¬ (lowerStr s.department = lowerStr department ∧
       lowerStr s.semester = lowerStr semester)

/-- The authoritative store: every public table except the protected `users`
table (which the sync engine never touches and `full_reset_cloud` skips). -/
structure CloudState where
  students : List Student
  subjects : List Subject
  timetable : List TimetableSlot
  attendance : List AttRow
  deriving DecidableEq, Repr

/-- `DELETE /sync/full-reset` (src/main.py `full_reset_cloud`): `TRUNCATE`
of every public table not in the protected set `{"users"}`. -/
def fullResetCloud (_st : CloudState) : CloudState :=
  { students := [], subjects := [], timetable := [], attendance := [] }

/-- The push validation predicate of `sync_students`: `if not
r.get("sbrn"): continue` — a record passes iff its `sbrn` is present and
non-empty. -/
def hasIdentity (r : StudentIn) : Bool :=
  match r.sbrn with
  | some s => decide (s ≠ "")
  | none => false

/-- The period-existence condition of `mark_attendance`: some timetable
slot matches the request on department, semester, subject and the
request date's weekday — and additionally on section unless the request's
section (lowercased) is the sentinel `"all"`. -/
def requestHasPeriod (req : AttendanceRequest) (day : String)
    (tt : List TimetableSlot) : Prop :=
  if lowerStr req.«section» = "all" then
    ∃ slot ∈ tt, slotMatchesTheory req day slot
  else
    ∃ slot ∈ tt, slotMatchesPractical req day slot

instance (req : AttendanceRequest) (day : String)
    (tt : List TimetableSlot) : Decidable (requestHasPeriod req day tt) := by
  unfold requestHasPeriod
  exact inferInstance

/-! ### Concrete records used in scenario and witness theorems -/

/-- The record of the C1 scenario: `{key: "S001", version: 1, name:
"Alice"}`. -/
def aliceIn : StudentIn :=
  { sbrn := some "S001", name := some "Alice", department := none,
    semester := none, «section» := none, course := none, batch := none,
    admission_date := none, year_semester := none, academic_status := none,
    last_updated := none, version := some 1, is_deleted := none,
    deleted_at := none }

/-- The stale rival of the C1 scenario: `{key: "S001", version: 1, name:
"Alicia"}`. -/
def aliciaIn : StudentIn := { aliceIn with name := some "Alicia" }

/-- A stored row as the first C1 scenario push produces it. -/
def aliceStored : Student :=
  { sbrn := "S001", name := some "Alice", department := none,
    semester := none, «section» := none, course := none, batch := none,
    admission_date := none, year_semester := none,
    academic_status := some "REGULAR", last_updated := 100, version := 1,
    is_deleted := 0, deleted_at := none }

/-- A same-version rival record for the stored row. -/
def aliciaStale : Student := { aliceStored with name := some "Alicia" }

/-- A well-formed timetable push record. -/
def slotInOK : TimetableIn :=
  { department := some "CSE", semester := some "3", «section» := some "A",
    day := some "Mon", period_no := some 1, period_len := some 1,
    type := some "Theory", subject_id := some "MATH", faculty_id := none,
    room := none, last_updated := 100, version := 1 }

/-- A timetable push record missing the mandatory `department` identity
field. -/
def slotInBad : TimetableIn := { slotInOK with department := none }

/-- A concrete stored timetable slot. -/
def slotA : TimetableSlot :=
  { department := "CSE", semester := "3", «section» := "A", day := "Mon",
    period_no := 1, period_len := some 1, type := some "Theory",
    subject_id := some "MATH", faculty_id := none, room := none,
    last_updated := 100, version := 1 }

/-- The concrete mark-attendance request of the C10 witness: a theory-case
(`section = "all"`) request for a Monday with one student marked
present. -/
def attReq0 : AttendanceRequest :=
  { department := "CSE", semester := "3", «section» := "all",
    subject := "MATH", date := "2024-10-07",
    attendance := [{ sbrn := "S001", present := true }], override := false }

/-- A catalog entry with primary key `(sid, sem, dept)` exists. -/
def triplePresent (subs : List Subject) (sid sem dept : String) : Prop :=
  ∃ e ∈ subs, e.pk = (sid, sem, dept)

/-! ### Facts about the version-gated upsert -/

/-- Some stored row carries key `k`. -/
def keyPresent {α κ : Type} (key : α → κ) (db : List α) (k : κ) : Prop :=
  ∃ s ∈ db, key s = k

/-- Every stored row carrying key `k` has version at least `v`. -/
def minVerAtLeast {α κ : Type} (key : α → κ) (ver : α → Int) (db : List α)
    (k : κ) (v : Int) : Prop :=
  ∀ s ∈ db, key s = k → v ≤ ver s

/-- The version the store holds for key `k`, a key that is not yet present
being treated as stored version 0. -/
def storedVersion {α κ : Type} [DecidableEq κ] (key : α → κ) (ver : α → Int)
    (db : List α) (k : κ) : Int :=
  ((db.find? fun s => decide (key s = k)).map ver).getD 0

section UpsertFacts

variable {α κ : Type} [DecidableEq κ] {key : α → κ} {ver : α → Int}

theorem keyPresent_upsert_self (db : List α) (r : α) :
    keyPresent key (upsertVersioned key ver db r) (key r) := by
  unfold upsertVersioned
  by_cases h : ∃ s ∈ db, key s = key r
  · rw [if_pos h]
    obtain ⟨s, hs, hk⟩ := h
    refine ⟨if key s = key r ∧ ver s < ver r then r else s,
      List.mem_map_of_mem _ hs, ?_⟩
    split
    · rfl
    · exact hk
  · rw [if_neg h]
    exact ⟨r, by simp, rfl⟩

theorem minVer_upsert_self (db : List α) (r : α) :
    minVerAtLeast key ver (upsertVersioned key ver db r) (key r) (ver r) := by
  intro s' hs' hk'
  unfold upsertVersioned at hs'
  by_cases h : ∃ s ∈ db, key s = key r
  · rw [if_pos h] at hs'
    obtain ⟨s, hs, hfs⟩ := List.mem_map.mp hs'
    by_cases hc : key s = key r ∧ ver s < ver r
    · rw [if_pos hc] at hfs; subst hfs; exact le_refl _
    · rw [if_neg hc] at hfs; subst hfs
      push_neg at hc
      exact hc hk'
  · rw [if_neg h] at hs'
    rcases List.mem_append.mp hs' with hmem | hmem
    · exact absurd ⟨s', hmem, hk'⟩ h
    · simp only [List.mem_singleton] at hmem
      subst hmem; exact le_refl _

theorem upsert_preserves (db : List α) (r : α) (k : κ) (v : Int)
    (hp : keyPresent key db k) (hm : minVerAtLeast key ver db k v) :
    keyPresent key (upsertVersioned key ver db r) k ∧
      minVerAtLeast key ver (upsertVersioned key ver db r) k v := by
  unfold upsertVersioned
  by_cases h : ∃ s ∈ db, key s = key r
  · rw [if_pos h]
    constructor
    · obtain ⟨s, hs, hk⟩ := hp
      refine ⟨if key s = key r ∧ ver s < ver r then r else s,
        List.mem_map_of_mem _ hs, ?_⟩
      split
      next hc => rw [← hc.1]; exact hk
      next => exact hk
    · intro s' hs' hk'
      obtain ⟨s, hs, hfs⟩ := List.mem_map.mp hs'
      by_cases hc : key s = key r ∧ ver s < ver r
      · rw [if_pos hc] at hfs; subst hfs
        have hsk : key s = k := by rw [hc.1]; exact hk'
        exact le_of_lt (lt_of_le_of_lt (hm s hs hsk) hc.2)
      · rw [if_neg hc] at hfs; subst hfs
        exact hm s hs hk'
  · rw [if_neg h]
    constructor
    · obtain ⟨s, hs, hk⟩ := hp
      exact ⟨s, List.mem_append_left _ hs, hk⟩
    · intro s' hs' hk'
      rcases List.mem_append.mp hs' with hmem | hmem
      · exact hm s' hmem hk'
      · simp only [List.mem_singleton] at hmem
        subst hmem
        obtain ⟨s, hs, hsk⟩ := hp
        exact absurd ⟨s, hs, by rw [hsk, ← hk']⟩ h

theorem upsert_noop (db : List α) (r : α)
    (hp : keyPresent key db (key r))
    (hm : minVerAtLeast key ver db (key r) (ver r)) :
    upsertVersioned key ver db r = db := by
  unfold upsertVersioned
  have hp' : ∃ s ∈ db, key s = key r := hp
  rw [if_pos hp']
  have hmap : db.map (fun s => if key s = key r ∧ ver s < ver r then r else s)
      = db.map id := by
    apply List.map_congr_left
    intro a ha
    simp only [id]
    rw [if_neg]
    rintro ⟨hk, hv⟩
    exact absurd hv (not_lt.mpr (hm a ha hk))
  rw [hmap, List.map_id]

theorem foldl_upsert_preserves (batch : List α) (db : List α) (k : κ)
    (v : Int) (hp : keyPresent key db k) (hm : minVerAtLeast key ver db k v) :
    keyPresent key (batch.foldl (upsertVersioned key ver) db) k ∧
      minVerAtLeast key ver (batch.foldl (upsertVersioned key ver) db) k v := by
  induction batch generalizing db with
  | nil => exact ⟨hp, hm⟩
  | cons b bs ih =>
    simp only [List.foldl_cons]
    obtain ⟨hp', hm'⟩ := upsert_preserves db b k v hp hm
    exact ih _ hp' hm'

theorem foldl_upsert_covers (batch : List α) (db : List α) :
    ∀ r ∈ batch,
      keyPresent key (batch.foldl (upsertVersioned key ver) db) (key r) ∧
        minVerAtLeast key ver (batch.foldl (upsertVersioned key ver) db)
          (key r) (ver r) := by
  induction batch generalizing db with
  | nil => intro r hr; cases hr
  | cons b bs ih =>
    intro r hr
    simp only [List.foldl_cons]
    rcases List.mem_cons.mp hr with rfl | hr'
    · exact foldl_upsert_preserves bs _ _ _ (keyPresent_upsert_self db r)
        (minVer_upsert_self db r)
    · exact ih _ r hr'

theorem foldl_upsert_noop (batch : List α) (db : List α)
    (h : ∀ r ∈ batch, keyPresent key db (key r) ∧
      minVerAtLeast key ver db (key r) (ver r)) :
    batch.foldl (upsertVersioned key ver) db = db := by
  induction batch with
  | nil => rfl
  | cons b bs ih =>
    simp only [List.foldl_cons]
    rw [upsert_noop db b (h b (by simp)).1 (h b (by simp)).2]
    exact ih fun r hr => h r (List.mem_cons_of_mem _ hr)

theorem upsert_keys_surviving (db : List α) (r : α) :
    ∀ s ∈ db, ∃ s' ∈ upsertVersioned key ver db r, key s' = key s := by
  intro s hs
  unfold upsertVersioned
  by_cases h : ∃ x ∈ db, key x = key r
  · rw [if_pos h]
    refine ⟨if key s = key r ∧ ver s < ver r then r else s,
      List.mem_map_of_mem _ hs, ?_⟩
    split
    next hc => exact hc.1.symm
    next => rfl
  · rw [if_neg h]
    exact ⟨s, List.mem_append_left _ hs, rfl⟩

theorem foldl_upsert_keys_surviving (batch : List α) (db : List α) :
    ∀ s ∈ db,
      ∃ s' ∈ batch.foldl (upsertVersioned key ver) db, key s' = key s := by
  induction batch generalizing db with
  | nil => intro s hs; exact ⟨s, hs, rfl⟩
  | cons b bs ih =>
    intro s hs
    simp only [List.foldl_cons]
    obtain ⟨s', hs', hk'⟩ := @upsert_keys_surviving α κ _ key ver db b s hs
    obtain ⟨s'', hs'', hk''⟩ := ih _ s' hs'
    exact ⟨s'', hs'', hk''.trans hk'⟩

theorem lookup_of_mem_of_nodup (db : List α) (hnd : (db.map key).Nodup)
    {s : α} {k : κ} (hs : s ∈ db) (hk : key s = k) :
    db.find? (fun x => decide (key x = k)) = some s := by
  induction db with
  | nil => cases hs
  | cons a l ih =>
    rw [List.map_cons, List.nodup_cons] at hnd
    by_cases ha : key a = k
    · rw [List.find?_cons_of_pos _ (by simpa using ha)]
      rcases List.mem_cons.mp hs with rfl | hsl
      · rfl
      · exfalso
        apply hnd.1
        rw [ha, ← hk]
        exact List.mem_map_of_mem key hsl
    · rw [List.find?_cons_of_neg _ (by simpa using ha)]
      rcases List.mem_cons.mp hs with rfl | hsl
      · exact absurd hk ha
      · exact ih hnd.2 hsl

/-- The conflict-resolver rule of one version-gated upsert, on a store whose
keys are unique (the tables enforce this with a primary key or unique
index) and for an incoming record with a positive version (the data model's
version counters start at 1; `normalizeStudent` defaults a missing version
to 1): the incoming record is accepted and stored iff its version exceeds
the stored version (0 for an absent key); otherwise the store is returned
unchanged. -/
theorem upsert_conflict_rule (db : List α) (r : α)
    (hnd : (db.map key).Nodup) (hv : 1 ≤ ver r) :
    (storedVersion key ver db (key r) < ver r →
       keyPresent key (upsertVersioned key ver db r) (key r) ∧
         ∀ s' ∈ upsertVersioned key ver db r, key s' = key r → s' = r) ∧
      (ver r ≤ storedVersion key ver db (key r) →
        upsertVersioned key ver db r = db) := by
  cases hfind : db.find? (fun x => decide (key x = key r)) with
  | none =>
    have habs : ∀ x ∈ db, key x ≠ key r := by
      intro x hx
      simpa using List.find?_eq_none.mp hfind x hx
    have hnotex : ¬ ∃ sx ∈ db, key sx = key r := by
      rintro ⟨sx, hsx, hkx⟩
      exact habs sx hsx hkx
    have hsv : storedVersion key ver db (key r) = 0 := by
      unfold storedVersion
      rw [hfind]
      rfl
    constructor
    · intro _
      constructor
      · unfold upsertVersioned
        rw [if_neg hnotex]
        exact ⟨r, by simp, rfl⟩
      · intro s' hs' hk'
        unfold upsertVersioned at hs'
        rw [if_neg hnotex] at hs'
        rcases List.mem_append.mp hs' with hmem | hmem
        · exact absurd hk' (habs s' hmem)
        · simpa using hmem
    · intro hle
      rw [hsv] at hle
      omega
  | some s₀ =>
    have hs₀ : s₀ ∈ db := List.mem_of_find?_eq_some hfind
    have hk₀ : key s₀ = key r := by
      simpa using List.find?_some hfind
    have hsv : storedVersion key ver db (key r) = ver s₀ := by
      unfold storedVersion
      rw [hfind]
      rfl
    have huniq : ∀ x ∈ db, key x = key r → x = s₀ := by
      intro x hx hkx
      have h1 := lookup_of_mem_of_nodup db hnd hx hkx
      rw [hfind] at h1
      exact (Option.some.inj h1).symm
    have hex : ∃ sx ∈ db, key sx = key r := ⟨s₀, hs₀, hk₀⟩
    constructor
    · intro hlt
      rw [hsv] at hlt
      constructor
      · unfold upsertVersioned
        rw [if_pos hex]
        refine ⟨r, ?_, rfl⟩
        have heq : (if key s₀ = key r ∧ ver s₀ < ver r then r else s₀) = r :=
          if_pos ⟨hk₀, hlt⟩
        exact List.mem_map.mpr ⟨s₀, hs₀, heq⟩
      · intro s' hs' hk'
        unfold upsertVersioned at hs'
        rw [if_pos hex] at hs'
        obtain ⟨x, hx, hfx⟩ := List.mem_map.mp hs'
        by_cases hc : key x = key r ∧ ver x < ver r
        · rw [if_pos hc] at hfx
          exact hfx.symm
        · rw [if_neg hc] at hfx
          subst hfx
          have hx₀ : x = s₀ := huniq x hx hk'
          rw [hx₀] at hc
          exact (hc ⟨hk₀, hlt⟩).elim
    · intro hle
      rw [hsv] at hle
      refine upsert_noop db r hex ?_
      intro x hx hkx
      rw [huniq x hx hkx]
      exact hle

end UpsertFacts

/-! ### Facts about the subjects auto-heal (Derived-View Maintainer) -/

theorem subjectStep_none (acc : List Subject) (slot : TimetableSlot)
    (h : slot.subject_id = none) : subjectStep acc slot = acc := by
  unfold subjectStep
  rw [h]

theorem subjectStep_some (acc : List Subject) (slot : TimetableSlot)
    (sid : String) (h : slot.subject_id = some sid) :
    subjectStep acc slot =
      if ∃ e ∈ acc, e.pk = (sid, slot.semester, slot.department) then acc
      else acc ++ [{ subject_id := sid, subject_name := sid,
                     department := slot.department,
                     semester := slot.semester, type := slot.type }] := by
  unfold subjectStep
  rw [h]

theorem subjectStep_superset (acc : List Subject) (slot : TimetableSlot) :
    ∀ e ∈ acc, e ∈ subjectStep acc slot := by
  intro e he
  cases hsid : slot.subject_id with
  | none => rw [subjectStep_none acc slot hsid]; exact he
  | some sid =>
    rw [subjectStep_some acc slot sid hsid]
    by_cases h : ∃ x ∈ acc, x.pk = (sid, slot.semester, slot.department)
    · rw [if_pos h]; exact he
    · rw [if_neg h]; exact List.mem_append_left _ he

theorem autoHeal_superset (tt : List TimetableSlot) :
    ∀ (subs : List Subject), ∀ e ∈ subs, e ∈ autoHealSubjects subs tt := by
  induction tt with
  | nil => intro subs e he; exact he
  | cons slot rest ih =>
    intro subs e he
    exact ih _ e (subjectStep_superset subs slot e he)

theorem subjectStep_covers (acc : List Subject) (slot : TimetableSlot)
    (sid : String) (hsid : slot.subject_id = some sid) :
    triplePresent (subjectStep acc slot) sid slot.semester slot.department := by
  rw [subjectStep_some acc slot sid hsid]
  by_cases h : ∃ x ∈ acc, x.pk = (sid, slot.semester, slot.department)
  · rw [if_pos h]
    exact h
  · rw [if_neg h]
    refine ⟨{ subject_id := sid, subject_name := sid,
              department := slot.department, semester := slot.semester,
              type := slot.type }, ?_, rfl⟩
    exact List.mem_append_right _ (List.mem_singleton.mpr rfl)

theorem triplePresent_step (acc : List Subject) (slot : TimetableSlot)
    {sid sem dept : String} (h : triplePresent acc sid sem dept) :
    triplePresent (subjectStep acc slot) sid sem dept := by
  obtain ⟨e, he, hpk⟩ := h
  exact ⟨e, subjectStep_superset acc slot e he, hpk⟩

theorem triplePresent_autoHeal (tt : List TimetableSlot) :
    ∀ (subs : List Subject) {sid sem dept : String},
      triplePresent subs sid sem dept →
        triplePresent (autoHealSubjects subs tt) sid sem dept := by
  induction tt with
  | nil => intro subs _ _ _ h; exact h
  | cons slot rest ih =>
    intro subs sid sem dept h
    exact ih _ (triplePresent_step subs slot h)

/-- After the auto-heal, every `(subject_id, semester, department)` triple
observed in the timetable has a catalog entry. -/
theorem autoHeal_covers (tt : List TimetableSlot) :
    ∀ (subs : List Subject), ∀ slot ∈ tt, ∀ sid,
      slot.subject_id = some sid →
        triplePresent (autoHealSubjects subs tt) sid slot.semester
          slot.department := by
  induction tt with
  | nil => intro subs slot hslot; cases hslot
  | cons a rest ih =>
    intro subs slot hslot sid hsid
    rcases List.mem_cons.mp hslot with rfl | hmem
    · exact triplePresent_autoHeal rest _ (subjectStep_covers subs slot sid hsid)
    · exact ih _ slot hmem sid hsid

theorem subjectStep_noop (acc : List Subject) (slot : TimetableSlot)
    (h : ∀ sid, slot.subject_id = some sid →
      triplePresent acc sid slot.semester slot.department) :
    subjectStep acc slot = acc := by
  cases hsid : slot.subject_id with
  | none => exact subjectStep_none acc slot hsid
  | some sid =>
    rw [subjectStep_some acc slot sid hsid]
    exact if_pos (h sid hsid)

theorem autoHeal_noop (tt : List TimetableSlot) (subs : List Subject)
    (h : ∀ slot ∈ tt, ∀ sid, slot.subject_id = some sid →
      triplePresent subs sid slot.semester slot.department) :
    autoHealSubjects subs tt = subs := by
  induction tt with
  | nil => rfl
  | cons slot rest ih =>
    show autoHealSubjects (subjectStep subs slot) rest = subs
    rw [subjectStep_noop subs slot (h slot (by simp))]
    exact ih fun s hs => h s (List.mem_cons_of_mem _ hs)

/-- The auto-heal is idempotent: a second run over an unchanged timetable
adds nothing. -/
theorem autoHeal_idem (subs : List Subject) (tt : List TimetableSlot) :
    autoHealSubjects (autoHealSubjects subs tt) tt =
      autoHealSubjects subs tt :=
  autoHeal_noop tt _ fun slot hs sid hsid =>
    autoHeal_covers tt subs slot hs sid hsid

/-- Every catalog entry the auto-heal adds carries the subject identifier as
its display name; pre-existing entries are never overwritten. -/
theorem autoHeal_new_names (tt : List TimetableSlot) :
    ∀ (subs : List Subject), ∀ e ∈ autoHealSubjects subs tt,
      e ∈ subs ∨ e.subject_name = e.subject_id := by
  induction tt with
  | nil => intro subs e he; exact Or.inl he
  | cons slot rest ih =>
    intro subs e he
    rcases ih (subjectStep subs slot) e he with hstep | hname
    · cases hsid : slot.subject_id with
      | none =>
        rw [subjectStep_none subs slot hsid] at hstep
        exact Or.inl hstep
      | some sid =>
        rw [subjectStep_some subs slot sid hsid] at hstep
        by_cases h : ∃ x ∈ subs, x.pk = (sid, slot.semester, slot.department)
        · rw [if_pos h] at hstep
          exact Or.inl hstep
        · rw [if_neg h] at hstep
          rcases List.mem_append.mp hstep with hmem | hmem
          · exact Or.inl hmem
          · simp only [List.mem_singleton] at hmem
            subst hmem
            exact Or.inr rfl
    · exact Or.inr hname

/-! ### Facts about student-record normalization -/

/-- The identity and version a pushed student record normalizes to do not
depend on the server clock: only `last_updated` does. -/
theorem normalizeStudent_keyVer (n₁ n₂ : Nat) (r : StudentIn) :
    (normalizeStudent n₁ r).map (fun x => (x.sbrn, x.version)) =
      (normalizeStudent n₂ r).map (fun x => (x.sbrn, x.version)) := by
  unfold normalizeStudent
  cases r.sbrn with
  | none => rfl
  | some s => by_cases hs : s = "" <;> simp [hs]

theorem filterMap_normalize_length (n₁ n₂ : Nat)
    (records : List StudentIn) :
    (records.filterMap (normalizeStudent n₁)).length =
      (records.filterMap (normalizeStudent n₂)).length := by
  induction records with
  | nil => rfl
  | cons r rs ih =>
    have h := normalizeStudent_keyVer n₁ n₂ r
    cases h₁ : normalizeStudent n₁ r with
    | none =>
      cases h₂ : normalizeStudent n₂ r with
      | none => simpa [List.filterMap_cons, h₁, h₂] using ih
      | some x => rw [h₁, h₂] at h; simp at h
    | some x =>
      cases h₂ : normalizeStudent n₂ r with
      | none => rw [h₁, h₂] at h; simp at h
      | some y => simpa [List.filterMap_cons, h₁, h₂] using ih

theorem filterMap_normalize_keyVer (n₁ n₂ : Nat)
    (records : List StudentIn) :
    ∀ x ∈ records.filterMap (normalizeStudent n₂),
      ∃ y ∈ records.filterMap (normalizeStudent n₁),
        y.sbrn = x.sbrn ∧ y.version = x.version := by
  induction records with
  | nil => intro x hx; cases hx
  | cons r rs ih =>
    intro x hx
    have h := normalizeStudent_keyVer n₁ n₂ r
    cases h₂ : normalizeStudent n₂ r with
    | none =>
      cases h₁ : normalizeStudent n₁ r with
      | none =>
        rw [List.filterMap_cons, h₂] at hx
        obtain ⟨y, hy, hk⟩ := ih x hx
        refine ⟨y, ?_, hk⟩
        rw [List.filterMap_cons, h₁]
        exact hy
      | some z => rw [h₁, h₂] at h; simp at h
    | some z =>
      cases h₁ : normalizeStudent n₁ r with
      | none => rw [h₁, h₂] at h; simp at h
      | some w =>
        rw [h₁, h₂] at h
        simp only [Option.map_some'] at h
        rw [List.filterMap_cons, h₂] at hx
        rcases List.mem_cons.mp hx with rfl | hx'
        · refine ⟨w, ?_, ?_, ?_⟩
          · rw [List.filterMap_cons, h₁]
            exact List.mem_cons_self _ _
          · exact congrArg Prod.fst (Option.some.inj h)
          · exact congrArg Prod.snd (Option.some.inj h)
        · obtain ⟨y, hy, hk⟩ := ih x hx'
          refine ⟨y, ?_, hk⟩
          rw [List.filterMap_cons, h₁]
          exact List.mem_cons_of_mem _ hy

/-! ### Facts about the pull handlers -/

theorem pullRows_perm {α : Type} (lm : α → Nat) (db : List α) (t : Nat) :
    (pullRows lm db (some t)).Perm (db.filter fun r => t < lm r) :=
  List.perm_insertionSort _ _

theorem pullRows_sorted {α : Type} (lm : α → Nat) (db : List α)
    (w : Option Nat) :
    (pullRows lm db w).Pairwise fun a b => lm a ≤ lm b := by
  haveI : IsTotal α fun a b => lm a ≤ lm b := ⟨fun a b => Nat.le_total _ _⟩
  haveI : IsTrans α fun a b => lm a ≤ lm b :=
    ⟨fun a b c hab hbc => Nat.le_trans hab hbc⟩
  cases w with
  | some t => exact List.sorted_insertionSort _ _
  | none => exact List.sorted_insertionSort _ _

theorem pullRows_mem {α : Type} (lm : α → Nat) (db : List α) (t : Nat) :
    ∀ r ∈ db, t < lm r → r ∈ pullRows lm db (some t) := fun r hr hlt =>
  (pullRows_perm lm db t).mem_iff.mpr
    (List.mem_filter.mpr ⟨hr, by simpa using hlt⟩)

theorem pullEndpoint_ok {α : Type} (lm : α → Nat)
    (parse : String → Option Nat) (s : String) (t : Nat) (db : List α)
    (hs : s ≠ "") (hp : parse s = some t) :
    pullEndpoint lm parse (some s) db =
      .ok (mkPullResp lm (pullRows lm db (some t))) := by
  simp [pullEndpoint, hs, hp]

theorem pullEndpoint_malformed {α : Type} (lm : α → Nat)
    (parse : String → Option Nat) (s : String) (db : List α)
    (hs : s ≠ "") (hp : parse s = none) :
    pullEndpoint lm parse (some s) db = .httpError 500 := by
  simp [pullEndpoint, hs, hp]

/-! ### Facts about the attendance upsert -/

theorem upsertAttendance_keys_surviving (att : List AttRow)
    (sbrn subj sem sec d : String) (v : Int) (n : Nat) :
    ∀ a ∈ att, ∃ a' ∈ upsertAttendance att sbrn subj sem sec d v n,
      a'.attKey = a.attKey := by
  intro a ha
  unfold upsertAttendance
  by_cases h : ∃ x ∈ att, x.attKey = (sbrn, subj, sem, sec, d)
  · rw [if_pos h]
    refine ⟨if a.attKey = (sbrn, subj, sem, sec, d) then
        { a with attended := v, last_updated := n } else a,
      List.mem_map_of_mem _ ha, ?_⟩
    split
    · rfl
    · rfl
  · rw [if_neg h]
    exact ⟨a, List.mem_append_left _ ha, rfl⟩

theorem foldl_upsertAtt_keys_surviving (recs : List StudentAttendance)
    (req : AttendanceRequest) (now : Nat) :
    ∀ (att : List AttRow), ∀ a ∈ att,
      ∃ a' ∈ recs.foldl
          (fun acc rec =>
            upsertAttendance acc rec.sbrn req.subject req.semester
              req.«section» req.date (if rec.present then 1 else 0) now)
          att,
        a'.attKey = a.attKey := by
  induction recs with
  | nil => intro att a ha; exact ⟨a, ha, rfl⟩
  | cons rec rest ih =>
    intro att a ha
    simp only [List.foldl_cons]
    obtain ⟨a', ha', hk'⟩ := upsertAttendance_keys_surviving att rec.sbrn
      req.subject req.semester req.«section» req.date
      (if rec.present then 1 else 0) now a ha
    obtain ⟨a'', ha'', hk''⟩ := ih _ a' ha'
    exact ⟨a'', ha'', hk''.trans hk'⟩

/-! ## Claim theorems -/

/-- **C1.**  For every push of a batch of Student or TimetableSlot records,
an incoming record for key K is accepted and applied (the stored record
under K becomes the incoming record) iff its version is strictly greater
than the stored version for K (a key not yet present being treated as
stored version 0); when rejected the store is returned entirely unchanged
and the surrounding fold continues with the next record.  The key-unique
hypotheses reflect the `sbrn` primary key and the declared `ON CONFLICT`
unique target; positivity of the incoming version is the data model's
domain (`normalizeStudent` defaults a missing version to 1).  The final
conjunct is the spec's scenario: pushing `{S001, v1, Alice}` then
`{S001, v1, Alicia}` is reported as a processed success yet leaves the
stored name `"Alice"`. -/
theorem conflictResolverRule :
    (∀ (db : List Student) (r : Student), (db.map Student.sbrn).Nodup →
      1 ≤ r.version →
      ((storedVersion Student.sbrn Student.version db r.sbrn < r.version →
          keyPresent Student.sbrn (upsertStudent db r) r.sbrn ∧
            ∀ s' ∈ upsertStudent db r, s'.sbrn = r.sbrn → s' = r) ∧
        (r.version ≤ storedVersion Student.sbrn Student.version db r.sbrn →
          upsertStudent db r = db))) ∧
    (∀ (db : List TimetableSlot) (r : TimetableSlot),
      (db.map TimetableSlot.slotKey).Nodup → 1 ≤ r.version →
      ((storedVersion TimetableSlot.slotKey TimetableSlot.version db
            r.slotKey < r.version →
          keyPresent TimetableSlot.slotKey (upsertSlot db r) r.slotKey ∧
            ∀ s' ∈ upsertSlot db r, s'.slotKey = r.slotKey → s' = r) ∧
        (r.version ≤ storedVersion TimetableSlot.slotKey
            TimetableSlot.version db r.slotKey →
          upsertSlot db r = db))) ∧
    (syncStudents 200 [aliciaIn] (syncStudents 100 [aliceIn] []).1 =
        ((syncStudents 100 [aliceIn] []).1, .success 1) ∧
      ∃ s ∈ (syncStudents 200 [aliciaIn]
          (syncStudents 100 [aliceIn] []).1).1,
        s.sbrn = "S001" ∧ s.name = some "Alice") := by
  refine ⟨?_, ?_, ?_, ?_⟩
  · intro db r hnd hv
    exact upsert_conflict_rule db r hnd hv
  · intro db r hnd hv
    exact upsert_conflict_rule db r hnd hv
  · decide
  · decide

/-- Witness for C1: the conflict rule applied at the scenario's store — the
same-version rival is silently dropped and the stored row survives
unchanged. -/
theorem conflictResolverRule_witness :
    upsertStudent [aliceStored] aliciaStale = [aliceStored] :=
  (conflictResolverRule.1 [aliceStored] aliciaStale (by decide)
    (by decide)).2 (by decide)

/-- **C2.**  Push is idempotent: re-sending any batch leaves the stored
state exactly as after the first push, and the repeated push returns the
very same response (same processed count, same success status — every
record is silently absorbed as stale, with no error).  Stated for both the
student and the timetable push handlers; the two `now` arguments allow the
server clock to differ between the two requests. -/
theorem pushIdempotent :
    (∀ (now₁ now₂ : Nat) (records : List StudentIn) (db : List Student),
        syncStudents now₂ records (syncStudents now₁ records db).1 =
          syncStudents now₁ records db) ∧
      ∀ (records : List TimetableIn) (st : TTState),
        syncTimetable records (syncTimetable records st).1 =
          syncTimetable records st := by
  constructor
  · intro now₁ now₂ records db
    by_cases hrec : records = []
    · subst hrec
      simp [syncStudents]
    · by_cases hn : records.filterMap (normalizeStudent now₁) = []
      · have hn₂ : records.filterMap (normalizeStudent now₂) = [] := by
          have hl := filterMap_normalize_length now₂ now₁ records
          rw [hn] at hl
          exact List.length_eq_zero.mp (by simpa using hl)
        simp [syncStudents, hrec, hn, hn₂]
      · have hn₂ : records.filterMap (normalizeStudent now₂) ≠ [] := by
          intro hcon
          apply hn
          have hl := filterMap_normalize_length now₁ now₂ records
          rw [hcon] at hl
          exact List.length_eq_zero.mp (by simpa using hl)
        have e₁ : syncStudents now₁ records db =
            ((records.filterMap (normalizeStudent now₁)).foldl upsertStudent
              db,
             .success (records.filterMap (normalizeStudent now₁)).length) :=
          by simp [syncStudents, hrec, hn]
        rw [e₁]
        show syncStudents now₂ records
            ((records.filterMap (normalizeStudent now₁)).foldl upsertStudent
              db) = _
        have e₂ : syncStudents now₂ records
            ((records.filterMap (normalizeStudent now₁)).foldl upsertStudent
              db) =
            ((records.filterMap (normalizeStudent now₂)).foldl upsertStudent
              ((records.filterMap (normalizeStudent now₁)).foldl
                upsertStudent db),
             .success (records.filterMap (normalizeStudent now₂)).length) :=
          by simp [syncStudents, hrec, hn₂]
        rw [e₂]
        have hnoop : (records.filterMap (normalizeStudent now₂)).foldl
            upsertStudent
            ((records.filterMap (normalizeStudent now₁)).foldl upsertStudent
              db) =
            (records.filterMap (normalizeStudent now₁)).foldl upsertStudent
              db := by
          apply foldl_upsert_noop
          intro x hx
          obtain ⟨y, hy, hsb, hver⟩ :=
            filterMap_normalize_keyVer now₁ now₂ records x hx
          have hcov := @foldl_upsert_covers Student String _ Student.sbrn
            Student.version (records.filterMap (normalizeStudent now₁)) db
            y hy
          rw [← hsb, ← hver]
          exact hcov
        have hlen : (records.filterMap (normalizeStudent now₂)).length =
            (records.filterMap (normalizeStudent now₁)).length :=
          filterMap_normalize_length now₂ now₁ records
        rw [hnoop, hlen]
  · intro records st
    by_cases hrec : records = []
    · subst hrec
      simp [syncTimetable, syncTimetableRun]
    · by_cases hval : records.all (fun r => r.toSlot.isSome)
      · have e₁ : syncTimetable records st =
            ({ timetable := (records.filterMap TimetableIn.toSlot).foldl
                upsertSlot st.timetable,
               subjects := autoHealSubjects st.subjects
                ((records.filterMap TimetableIn.toSlot).foldl upsertSlot
                  st.timetable) },
             .success records.length) := by
          simp [syncTimetable, syncTimetableRun, hrec, hval]
        rw [e₁]
        show syncTimetable records _ = _
        have e₂ : syncTimetable records
            ({ timetable := (records.filterMap TimetableIn.toSlot).foldl
                upsertSlot st.timetable,
               subjects := autoHealSubjects st.subjects
                ((records.filterMap TimetableIn.toSlot).foldl upsertSlot
                  st.timetable) } : TTState) =
            ({ timetable := (records.filterMap TimetableIn.toSlot).foldl
                upsertSlot
                ((records.filterMap TimetableIn.toSlot).foldl upsertSlot
                  st.timetable),
               subjects := autoHealSubjects
                (autoHealSubjects st.subjects
                  ((records.filterMap TimetableIn.toSlot).foldl upsertSlot
                    st.timetable))
                ((records.filterMap TimetableIn.toSlot).foldl upsertSlot
                  ((records.filterMap TimetableIn.toSlot).foldl upsertSlot
                    st.timetable)) },
             .success records.length) := by
          simp [syncTimetable, syncTimetableRun, hrec, hval]
        rw [e₂]
        have hnoop : (records.filterMap TimetableIn.toSlot).foldl upsertSlot
            ((records.filterMap TimetableIn.toSlot).foldl upsertSlot
              st.timetable) =
            (records.filterMap TimetableIn.toSlot).foldl upsertSlot
              st.timetable := by
          apply foldl_upsert_noop
          intro r hr
          exact @foldl_upsert_covers TimetableSlot _ _
            TimetableSlot.slotKey TimetableSlot.version
            (records.filterMap TimetableIn.toSlot) st.timetable r hr
        rw [hnoop, autoHeal_idem]
      · have e : syncTimetable records st = (st, .error 500) := by
          simp [syncTimetable, syncTimetableRun, hrec, hval]
        rw [e]
        exact e

/-- **C3.**  For every pull with a successfully parsed watermark `t`, the
returned record sequence is exactly (a permutation-exact enumeration of)
the stored records with `last_modified > t`, ordered ascending by
`last_modified`; rows are returned whole — in particular a soft-deleted
student row (`is_deleted` set) is returned with its tombstone flag rather
than filtered out, as the membership clause quantifies over all stored
rows regardless of `is_deleted`.  Stated for all three pull handlers. -/
theorem pullExactness (parse : String → Option Nat) (s : String) (t : Nat)
    (dbS : List Student) (dbT : List TimetableSlot) (dbA : List AttRow)
    (hs : s ≠ "") (hp : parse s = some t) :
    (∃ resp, syncStudentsFromCloud parse (some s) dbS = .ok resp ∧
       resp.records.Perm (dbS.filter fun r => t < r.last_updated) ∧
       resp.records.Pairwise (fun a b => a.last_updated ≤ b.last_updated) ∧
       ∀ r ∈ dbS, t < r.last_updated → r ∈ resp.records) ∧
    (∃ resp, getTimetableSync parse (some s) dbT = .ok resp ∧
       resp.records.Perm (dbT.filter fun r => t < r.last_updated) ∧
       resp.records.Pairwise (fun a b => a.last_updated ≤ b.last_updated) ∧
       ∀ r ∈ dbT, t < r.last_updated → r ∈ resp.records) ∧
    (∃ resp, syncAttendanceFromCloud parse (some s) dbA = .ok resp ∧
       resp.records.Perm (dbA.filter fun r => t < r.last_updated) ∧
       resp.records.Pairwise (fun a b => a.last_updated ≤ b.last_updated) ∧
       ∀ r ∈ dbA, t < r.last_updated → r ∈ resp.records) := by
  refine ⟨⟨_, pullEndpoint_ok _ parse s t dbS hs hp, ?_, ?_, ?_⟩,
    ⟨_, pullEndpoint_ok _ parse s t dbT hs hp, ?_, ?_, ?_⟩,
    ⟨_, pullEndpoint_ok _ parse s t dbA hs hp, ?_, ?_, ?_⟩⟩
  · exact pullRows_perm _ dbS t
  · exact pullRows_sorted _ dbS (some t)
  · exact pullRows_mem _ dbS t
  · exact pullRows_perm _ dbT t
  · exact pullRows_sorted _ dbT (some t)
  · exact pullRows_mem _ dbT t
  · exact pullRows_perm _ dbA t
  · exact pullRows_sorted _ dbA (some t)
  · exact pullRows_mem _ dbA t

/-- Witness for C3: the student pull at a concrete store and watermark. -/
theorem pullExactness_witness :
    ∃ resp, syncStudentsFromCloud (fun _ => some 5) (some "2024")
        [aliceStored] = .ok resp ∧
      resp.records.Perm ([aliceStored].filter fun r => 5 < r.last_updated) ∧
      resp.records.Pairwise (fun a b => a.last_updated ≤ b.last_updated) ∧
      ∀ r ∈ [aliceStored], 5 < r.last_updated → r ∈ resp.records :=
  (pullExactness (fun _ => some 5) "2024" 5 [aliceStored] [] []
    (by decide) rfl).1

/-- Counterexample for C4: a pull over an empty increment returns
`latest_sync = null`, not the caller's input watermark (parsed value 5)
echoed back, contradicting the claim's empty-result clause. -/
theorem pullWatermarkEmpty_cex :
    syncStudentsFromCloud (fun _ => some 5) (some "2024-01-01") [] =
      .ok { count := 0, latest_sync := none, records := [] } ∧
    (PullOutcome.ok
        { count := 0, latest_sync := some 5,
          records := ([] : List Student) } ≠
      PullOutcome.ok
        { count := 0, latest_sync := none, records := [] }) := by
  constructor
  · decide
  · decide

/-- **C4 (amended).**  For every pull, the returned watermark equals the
`last_modified` of the last record in the (ordered) result sequence; when
the result is empty the handler returns a `null` watermark — not the
caller's input watermark echoed back — and the caller is expected to keep
its previous one.  Stated for all three pull handlers. -/
theorem pullWatermark_amended (parse : String → Option Nat) (s : String)
    (t : Nat) (dbS : List Student) (dbT : List TimetableSlot)
    (dbA : List AttRow) (hs : s ≠ "") (hp : parse s = some t) :
    (∃ resp, syncStudentsFromCloud parse (some s) dbS = .ok resp ∧
       (resp.records ≠ [] → ∃ last, resp.records.getLast? = some last ∧
          resp.latest_sync = some last.last_updated) ∧
       (resp.records = [] → resp.latest_sync = none)) ∧
    (∃ resp, getTimetableSync parse (some s) dbT = .ok resp ∧
       (resp.records ≠ [] → ∃ last, resp.records.getLast? = some last ∧
          resp.latest_sync = some last.last_updated) ∧
       (resp.records = [] → resp.latest_sync = none)) ∧
    (∃ resp, syncAttendanceFromCloud parse (some s) dbA = .ok resp ∧
       (resp.records ≠ [] → ∃ last, resp.records.getLast? = some last ∧
          resp.latest_sync = some last.last_updated) ∧
       (resp.records = [] → resp.latest_sync = none)) := by
  have key : ∀ (α : Type) (lm : α → Nat) (rows : List α),
      ((mkPullResp lm rows).records ≠ [] →
        ∃ last, (mkPullResp lm rows).records.getLast? = some last ∧
          (mkPullResp lm rows).latest_sync = some (lm last)) ∧
      ((mkPullResp lm rows).records = [] →
        (mkPullResp lm rows).latest_sync = none) := by
    intro α lm rows
    constructor
    · intro hne
      have hsome : rows.getLast?.isSome := List.getLast?_isSome.mpr hne
      obtain ⟨l, hl⟩ := Option.isSome_iff_exists.mp hsome
      exact ⟨l, hl, by simp [mkPullResp, hl]⟩
    · intro hemp
      have hrows : rows = [] := hemp
      subst hrows
      rfl
  exact ⟨⟨_, pullEndpoint_ok _ parse s t dbS hs hp, key _ _ _⟩,
    ⟨_, pullEndpoint_ok _ parse s t dbT hs hp, key _ _ _⟩,
    ⟨_, pullEndpoint_ok _ parse s t dbA hs hp, key _ _ _⟩⟩

/-- Witness for the amended C4: a non-empty student pull carries the last
row's `last_updated` as the new watermark. -/
theorem pullWatermark_amended_witness :
    ∃ resp, syncStudentsFromCloud (fun _ => some 5) (some "2024")
        [aliceStored] = .ok resp ∧
      (resp.records ≠ [] → ∃ last, resp.records.getLast? = some last ∧
        resp.latest_sync = some last.last_updated) ∧
      (resp.records = [] → resp.latest_sync = none) :=
  (pullWatermark_amended (fun _ => some 5) "2024" 5 [aliceStored] [] []
    (by decide) rfl).1

/-- Equation lemma: `mark_attendance` on an unparsable date raises (the
`ValueError` is caught and surfaced as a 500) and leaves the attendance
table untouched. -/
theorem markAttendance_none (parse : String → Option Date) (now : Nat)
    (req : AttendanceRequest) (tt : List TimetableSlot) (att : List AttRow)
    (h : parse req.date = none) :
    markAttendance parse now req tt att = (att, .error 500) := by
  unfold markAttendance
  rw [h]

/-- Equation lemma: `mark_attendance` on a parsed date reduces to the
period check followed by either the unconditional upsert loop or the
`no_period` early return. -/
theorem markAttendance_some (parse : String → Option Date) (now : Nat)
    (req : AttendanceRequest) (tt : List TimetableSlot) (att : List AttRow)
    (dt : Date) (h : parse req.date = some dt) :
    markAttendance parse now req tt att =
      if (if lowerStr req.«section» = "all" then
            tt.any (slotMatchesTheory req dt.dayShort)
          else tt.any (slotMatchesPractical req dt.dayShort)) then
        (req.attendance.foldl
          (fun acc rec =>
            upsertAttendance acc rec.sbrn req.subject req.semester
              req.«section» req.date (if rec.present then 1 else 0) now)
          att, .saved)
      else (att, .noPeriod) := by
  unfold markAttendance
  rw [h]

/-! ### Helper lemmas for the push handlers -/

/-- The stored state a student push produces, uniformly over all response
branches: the fold of the version-gated upsert over the normalized batch
(trivially the original store in the `no_data` / `no_valid_records`
branches). -/
theorem syncStudents_state (now : Nat) (records : List StudentIn)
    (db : List Student) :
    (syncStudents now records db).1 =
      (records.filterMap (normalizeStudent now)).foldl upsertStudent db := by
  unfold syncStudents
  by_cases hrec : records = []
  · subst hrec
    simp
  · rw [if_neg hrec]
    by_cases hn : records.filterMap (normalizeStudent now) = []
    · simp [hn]
    · simp [hn]

theorem normalize_isSome_of_hasIdentity (now : Nat) (r : StudentIn)
    (h : hasIdentity r = true) : (normalizeStudent now r).isSome := by
  unfold hasIdentity at h
  unfold normalizeStudent
  cases hsb : r.sbrn with
  | none => rw [hsb] at h; cases h
  | some s =>
    rw [hsb] at h
    simp only [decide_eq_true_eq] at h
    simp [h]

theorem normalize_eq_none_of_not_hasIdentity (now : Nat) (r : StudentIn)
    (h : hasIdentity r = false) : normalizeStudent now r = none := by
  unfold hasIdentity at h
  unfold normalizeStudent
  cases hsb : r.sbrn with
  | none => rfl
  | some s =>
    rw [hsb] at h
    simp only [decide_eq_false_iff_not, not_not] at h
    simp [h]

theorem filterMap_normalize_filter (now : Nat) (records : List StudentIn) :
    records.filterMap (normalizeStudent now) =
      (records.filter hasIdentity).filterMap (normalizeStudent now) := by
  induction records with
  | nil => rfl
  | cons r rs ih =>
    by_cases h : hasIdentity r
    · simp only [List.filter_cons, h, if_pos, List.filterMap_cons]
      rw [ih]
    · have hn : normalizeStudent now r = none :=
        normalize_eq_none_of_not_hasIdentity now r (by simpa using h)
      simp only [List.filter_cons, List.filterMap_cons, hn]
      rw [if_neg h, ih]

theorem filterMap_normalize_all_length (now : Nat) (l : List StudentIn)
    (h : ∀ r ∈ l, hasIdentity r) :
    (l.filterMap (normalizeStudent now)).length = l.length := by
  induction l with
  | nil => rfl
  | cons r rs ih =>
    have hr := h r (by simp)
    obtain ⟨x, hx⟩ := Option.isSome_iff_exists.mp
      (normalize_isSome_of_hasIdentity now r hr)
    rw [List.filterMap_cons, hx]
    simp only [List.length_cons]
    rw [ih fun a ha => h a (List.mem_cons_of_mem _ ha)]

/-- **C5 (the code's actual behaviour at the claimed 400).**  A pull called
with a supplied but unparsable watermark does fail rather than silently
doing a full resync, but the surfaced status is 500, not the claimed
distinct 400 client error: the handler's `raise HTTPException(400, …)` sits
inside the enclosing `try`, whose `except Exception` clause catches it (a
FastAPI `HTTPException` is an `Exception`) and re-raises
`HTTPException(500, str(e))`.  Evaluated here at a concrete malformed
watermark for all three pull handlers. -/
theorem malformedWatermarkGives500 :
    syncStudentsFromCloud (fun _ => none) (some "not-a-timestamp") [] =
        .httpError 500 ∧
      getTimetableSync (fun _ => none) (some "not-a-timestamp") [] =
        .httpError 500 ∧
      syncAttendanceFromCloud (fun _ => none) (some "not-a-timestamp") [] =
        .httpError 500 := by
  refine ⟨?_, ?_, ?_⟩ <;> decide

/-- Counterexample for C6: a push with an empty batch does not fail — both
push handlers return a 200 body with status `no_data` (not an error) and
leave the store untouched. -/
theorem emptyBatchNoData_cex :
    syncStudents 0 [] [] = ([], .noData) ∧
      (syncStudents 0 [] []).2.isError = false ∧
      syncTimetable [] { timetable := [], subjects := [] } =
        ({ timetable := [], subjects := [] }, .noData) ∧
      (syncTimetable [] { timetable := [], subjects := [] }).2.isError =
        false := by
  refine ⟨?_, ?_, ?_, ?_⟩ <;> decide

/-- **C6 (amended).**  A push called with an empty batch does not raise a
`ValidationError`: it returns immediately with the non-error status
`no_data`, leaving the store unchanged and processing nothing. -/
theorem emptyBatchNoData_amended :
    (∀ (now : Nat) (db : List Student),
        syncStudents now [] db = (db, .noData) ∧
          (syncStudents now [] db).2.isError = false) ∧
      ∀ st : TTState,
        syncTimetable [] st = (st, .noData) ∧
          (syncTimetable [] st).2.isError = false := by
  constructor
  · intro now db
    constructor
    · simp [syncStudents]
    · simp [syncStudents, SyncResp.isError]
  · intro st
    constructor
    · simp [syncTimetable, syncTimetableRun]
    · simp [syncTimetable, syncTimetableRun, SyncResp.isError]

/-- Counterexample for C7: a timetable batch containing one record with a
missing mandatory identity field fails as a whole — the entire batch is
rolled back with a 500 and the well-formed first record is *not*
processed, contradicting the claim that malformed records are dropped and
the rest still processed for every entity type. -/
theorem timetableNoValidation_cex :
    syncTimetable [slotInOK, slotInBad] { timetable := [], subjects := [] } =
      ({ timetable := [], subjects := [] }, .error 500) := by
  decide

/-- **C7 (amended).**  Only the Student push drops records missing the
mandatory identity field (`sbrn`) and still processes the remaining
well-formed records (reporting their count); the TimetableSlot push has no
per-record validation — a record missing a mandatory identity field makes
the whole batch fail with a storage error, applying nothing. -/
theorem validationPartial_amended :
    (∀ (now : Nat) (records : List StudentIn) (db : List Student),
        (syncStudents now records db).1 =
          (syncStudents now (records.filter hasIdentity) db).1) ∧
      (∀ (now : Nat) (records : List StudentIn) (db : List Student),
          records.filter hasIdentity ≠ [] →
            (syncStudents now records db).2 =
              .success (records.filter hasIdentity).length) ∧
      ∀ (records : List TimetableIn) (st : TTState),
        (∃ r ∈ records, r.toSlot = none) →
          syncTimetable records st = (st, .error 500) := by
  refine ⟨?_, ?_, ?_⟩
  · intro now records db
    rw [syncStudents_state, syncStudents_state, filterMap_normalize_filter]
  · intro now records db hfil
    have hrec : records ≠ [] := by
      intro hcon
      subst hcon
      exact hfil rfl
    have hall : ∀ r ∈ records.filter hasIdentity, hasIdentity r :=
      fun r hr => List.of_mem_filter hr
    have hlen : ((records.filter hasIdentity).filterMap
        (normalizeStudent now)).length =
          (records.filter hasIdentity).length :=
      filterMap_normalize_all_length now _ hall
    have heq := filterMap_normalize_filter now records
    have hn : records.filterMap (normalizeStudent now) ≠ [] := by
      intro hcon
      rw [heq] at hcon
      have : (records.filter hasIdentity).length = 0 := by
        rw [← hlen, hcon]
        rfl
      exact hfil (List.length_eq_zero.mp this)
    have e : (syncStudents now records db).2 =
        .success (records.filterMap (normalizeStudent now)).length := by
      simp [syncStudents, hrec, hn]
    rw [e, heq, hlen]
  · intro records st ⟨r, hr, hbad⟩
    have hrec : records ≠ [] := by
      intro hcon
      subst hcon
      cases hr
    have hval : ¬ records.all (fun x => x.toSlot.isSome) := by
      intro hcon
      have := List.all_eq_true.mp hcon r hr
      rw [hbad] at this
      cases this
    simp [syncTimetable, syncTimetableRun, hrec, hval]

/-- Witness for the amended C7: at a batch holding one well-formed and one
malformed student record, the malformed one is dropped and the push
succeeds on the rest; and the mixed timetable batch from the
counterexample fails whole. -/
theorem validationPartial_amended_witness :
    (syncStudents 0 [aliceIn, { aliceIn with sbrn := none }] []).2 =
      .success ([aliceIn, { aliceIn with sbrn := none }].filter
        hasIdentity).length :=
  validationPartial_amended.2.1 0 [aliceIn, { aliceIn with sbrn := none }]
    [] (by decide)

/-- Counterexample for C8: the derived-view maintainer does *not* share a
durability unit with the timetable batch.  The handler commits the
timetable upserts first and only then runs and separately commits the
subjects auto-heal; a storage failure between the two commits leaves the
timetable row durably applied while the catalog entry for its subject is
absent — "either both or neither" is violated. -/
theorem derivedViewDurability_cex :
    (syncTimetableRun .duringAutoHeal [slotInOK]
        { timetable := [], subjects := [] }).1.timetable ≠ [] ∧
      (syncTimetableRun .duringAutoHeal [slotInOK]
        { timetable := [], subjects := [] }).1.subjects = [] ∧
      (syncTimetableRun .duringAutoHeal [slotInOK]
        { timetable := [], subjects := [] }).2 = .error 500 := by
  refine ⟨?_, ?_, ?_⟩ <;> decide

/-- **C8 (amended).**  For every well-formed non-empty TimetableSlot push,
the derived-view maintainer runs synchronously after the batch but in a
*second, separate* transaction: a failure between the two commits leaves
the timetable upserts durable with the catalog untouched; when both
commits succeed, every `(subject_id, department, semester)` triple observed
in the stored timetable has a catalog entry whose display name defaults to
the subject identifier unless a richer entry already existed. -/
theorem derivedViewMaintainer_amended (records : List TimetableIn)
    (st : TTState) (hrec : records ≠ [])
    (hval : records.all (fun r => r.toSlot.isSome)) :
    (syncTimetableRun .duringAutoHeal records st =
        ({ timetable := (records.filterMap TimetableIn.toSlot).foldl
            upsertSlot st.timetable,
           subjects := st.subjects }, .error 500)) ∧
      (syncTimetable records st =
        ({ timetable := (records.filterMap TimetableIn.toSlot).foldl
            upsertSlot st.timetable,
           subjects := autoHealSubjects st.subjects
            ((records.filterMap TimetableIn.toSlot).foldl upsertSlot
              st.timetable) }, .success records.length)) ∧
      ∀ slot ∈ (syncTimetable records st).1.timetable, ∀ sid,
        slot.subject_id = some sid →
          ∃ e ∈ (syncTimetable records st).1.subjects,
            e.pk = (sid, slot.semester, slot.department) ∧
              (e ∈ st.subjects ∨ e.subject_name = e.subject_id) := by
  have e₂ : syncTimetable records st =
      ({ timetable := (records.filterMap TimetableIn.toSlot).foldl
          upsertSlot st.timetable,
         subjects := autoHealSubjects st.subjects
          ((records.filterMap TimetableIn.toSlot).foldl upsertSlot
            st.timetable) }, .success records.length) := by
    simp [syncTimetable, syncTimetableRun, hrec, hval]
  refine ⟨?_, e₂, ?_⟩
  · simp [syncTimetableRun, hrec, hval]
  · intro slot hslot sid hsid
    rw [e₂] at hslot ⊢
    obtain ⟨e, he, hpk⟩ := autoHeal_covers _ st.subjects slot hslot sid hsid
    rcases autoHeal_new_names _ st.subjects e he with hold | hname
    · exact ⟨e, he, hpk, Or.inl hold⟩
    · exact ⟨e, he, hpk, Or.inr hname⟩

/-- Witness for the amended C8: the failure-injected run at a concrete
batch leaves the pushed slot durable and the catalog empty. -/
theorem derivedViewMaintainer_amended_witness :
    syncTimetableRun .duringAutoHeal [slotInOK]
        { timetable := [], subjects := [] } =
      ({ timetable := ([slotInOK].filterMap TimetableIn.toSlot).foldl
          upsertSlot [],
         subjects := [] }, .error 500) :=
  (derivedViewMaintainer_amended [slotInOK] { timetable := [], subjects := [] }
    (by decide) (by decide)).1

/-- Counterexample for C9: `DELETE /sync/timetable` physically removes a
stored record — after resetting its (case-insensitively matched)
department and semester, the slot is gone from the collection rather than
tombstoned (timetable rows carry no soft-delete marker at all). -/
theorem physicalDeletion_cex :
    slotA ∈ [slotA] ∧ resetTimetableFromDesktop "cse" "3" [slotA] = [] := by
  constructor
  · decide
  · decide

/-- Each branch of the timetable push leaves the stored timetable either
untouched or equal to the fold of the version-gated upserts. -/
theorem syncTimetableRun_timetable_cases (fail : TTFail)
    (records : List TimetableIn) (st : TTState) :
    (syncTimetableRun fail records st).1.timetable = st.timetable ∨
      (syncTimetableRun fail records st).1.timetable =
        (records.filterMap TimetableIn.toSlot).foldl upsertSlot
          st.timetable := by
  unfold syncTimetableRun
  by_cases hrec : records = []
  · rw [if_pos hrec]
    exact Or.inl rfl
  · rw [if_neg hrec]
    by_cases hcond : fail = .duringBatch ∨
        ¬ records.all (fun r => r.toSlot.isSome)
    · rw [if_pos hcond]
      exact Or.inl rfl
    · rw [if_neg hcond]
      by_cases hah : fail = .duringAutoHeal
      · rw [if_pos hah]
        exact Or.inr rfl
      · rw [if_neg hah]
        exact Or.inr rfl

/-- **C9 (amended).**  The sync operations themselves never physically
remove a record: every stored key survives any student push, any timetable
push (under any storage-failure injection), and any attendance marking.
Physical removal happens only through the explicit reset endpoints:
`DELETE /sync/timetable` deletes exactly the timetable rows whose
department and semester match case-insensitively, and
`DELETE /sync/full-reset` truncates every non-protected table. -/
theorem deletionScope_amended :
    (∀ (now : Nat) (records : List StudentIn) (db : List Student),
        ∀ s ∈ db, ∃ s' ∈ (syncStudents now records db).1,
          s'.sbrn = s.sbrn) ∧
      (∀ (fail : TTFail) (records : List TimetableIn) (st : TTState),
          ∀ slot ∈ st.timetable,
            ∃ slot' ∈ (syncTimetableRun fail records st).1.timetable,
              slot'.slotKey = slot.slotKey) ∧
      (∀ (parse : String → Option Date) (now : Nat)
          (req : AttendanceRequest) (tt : List TimetableSlot)
          (att : List AttRow),
          ∀ a ∈ att, ∃ a' ∈ (markAttendance parse now req tt att).1,
            a'.attKey = a.attKey) ∧
      (∀ (d sem : String) (tt : List TimetableSlot), ∀ slot ∈ tt,
          (slot ∈ resetTimetableFromDesktop d sem tt ↔
            ¬ (lowerStr slot.department = lowerStr d ∧
               lowerStr slot.semester = lowerStr sem))) ∧
      ∀ st : CloudState,
        fullResetCloud st =
          { students := [], subjects := [], timetable := [],
            attendance := [] } := by
  refine ⟨?_, ?_, ?_, ?_, ?_⟩
  · intro now records db s hs
    rw [syncStudents_state]
    exact @foldl_upsert_keys_surviving Student String _ Student.sbrn
      Student.version (records.filterMap (normalizeStudent now)) db s hs
  · intro fail records st slot hslot
    rcases syncTimetableRun_timetable_cases fail records st with heq | heq
    · rw [heq]
      exact ⟨slot, hslot, rfl⟩
    · rw [heq]
      exact @foldl_upsert_keys_surviving TimetableSlot _ _
        TimetableSlot.slotKey TimetableSlot.version
        (records.filterMap TimetableIn.toSlot) st.timetable slot hslot
  · intro parse now req tt att a ha
    cases hpd : parse req.date with
    | none =>
      rw [markAttendance_none parse now req tt att hpd]
      exact ⟨a, ha, rfl⟩
    | some dt =>
      rw [markAttendance_some parse now req tt att dt hpd]
      by_cases hper : (if lowerStr req.«section» = "all" then
          tt.any (slotMatchesTheory req dt.dayShort)
        else tt.any (slotMatchesPractical req dt.dayShort)) = true
      · rw [if_pos hper]
        exact foldl_upsertAtt_keys_surviving req.attendance req now att a ha
      · rw [if_neg hper]
        exact ⟨a, ha, rfl⟩
  · intro d sem tt slot hslot
    simp only [resetTimetableFromDesktop, List.mem_filter, hslot,
      true_and, decide_eq_true_eq]
  · intro st
    rfl

/-- Witness for the amended C9: a stored student survives a (here empty)
push, key intact. -/
theorem deletionScope_amended_witness :
    ∃ s' ∈ (syncStudents 0 [] [aliceStored]).1,
      s'.sbrn = aliceStored.sbrn :=
  deletionScope_amended.1 0 [] [aliceStored] aliceStored (by decide)

/-- The period-existence Prop coincides with the Bool condition the handler
computes with `tt.any`. -/
theorem requestHasPeriod_iff (req : AttendanceRequest) (day : String)
    (tt : List TimetableSlot) :
    requestHasPeriod req day tt ↔
      (if lowerStr req.«section» = "all" then
          tt.any (slotMatchesTheory req day)
        else tt.any (slotMatchesPractical req day)) = true := by
  unfold requestHasPeriod
  by_cases h : lowerStr req.«section» = "all"
  · rw [if_pos h, if_pos h]
    exact List.any_eq_true.symm
  · rw [if_neg h, if_neg h]
    exact List.any_eq_true.symm

/-- **C10.**  Attendance writes are not version-gated.  Whenever the
request's department, semester, subject and the date's weekday (and, unless
the lowercased section is the sentinel `"all"`, the section) match some
timetable slot, `mark_attendance` upserts every record of the request
unconditionally and reports `saved`; with no matching slot it returns
`no_period` and leaves the attendance table unchanged.  The final conjunct
characterizes the unconditional upsert: an existing `attendance_daily` row
at the same `(sbrn, subject, semester, section, class_date)` always has its
`attended` value replaced by the incoming one and its `last_updated` reset
(the row type carries no version counter), and an absent key is freshly
inserted. -/
theorem markAttendanceUnversioned (parse : String → Option Date) (now : Nat)
    (req : AttendanceRequest) (tt : List TimetableSlot) (att : List AttRow)
    (dt : Date) (hp : parse req.date = some dt) :
    (requestHasPeriod req dt.dayShort tt →
       markAttendance parse now req tt att =
         (req.attendance.foldl
           (fun acc rec =>
             upsertAttendance acc rec.sbrn req.subject req.semester
               req.«section» req.date (if rec.present then 1 else 0) now)
           att, .saved)) ∧
      (¬ requestHasPeriod req dt.dayShort tt →
        markAttendance parse now req tt att = (att, .noPeriod)) ∧
      ∀ (db : List AttRow) (sb subj sem sec date : String) (v : Int)
        (n : Nat),
        (∀ a ∈ db, a.attKey = (sb, subj, sem, sec, date) →
           { a with attended := v, last_updated := n } ∈
             upsertAttendance db sb subj sem sec date v n) ∧
        (∀ b ∈ upsertAttendance db sb subj sem sec date v n,
           b.attKey = (sb, subj, sem, sec, date) →
             b.attended = v ∧ b.last_updated = n) ∧
        ((∀ a ∈ db, a.attKey ≠ (sb, subj, sem, sec, date)) →
           upsertAttendance db sb subj sem sec date v n =
             db ++ [{ sbrn := sb, subject := subj, semester := sem,
                      «section» := sec, class_date := date, attended := v,
                      last_updated := n }]) := by
  refine ⟨?_, ?_, ?_⟩
  · intro hmatch
    rw [markAttendance_some parse now req tt att dt hp,
      if_pos ((requestHasPeriod_iff req dt.dayShort tt).mp hmatch)]
  · intro hmatch
    rw [markAttendance_some parse now req tt att dt hp,
      if_neg fun hcon =>
        hmatch ((requestHasPeriod_iff req dt.dayShort tt).mpr hcon)]
  · intro db sb subj sem sec date v n
    refine ⟨?_, ?_, ?_⟩
    · intro a ha hk
      unfold upsertAttendance
      rw [if_pos ⟨a, ha, hk⟩]
      exact List.mem_map.mpr ⟨a, ha, by rw [if_pos hk]⟩
    · intro b hb hbk
      unfold upsertAttendance at hb
      by_cases h : ∃ x ∈ db, x.attKey = (sb, subj, sem, sec, date)
      · rw [if_pos h] at hb
        obtain ⟨x, hx, hfx⟩ := List.mem_map.mp hb
        by_cases hxk : x.attKey = (sb, subj, sem, sec, date)
        · rw [if_pos hxk] at hfx
          subst hfx
          exact ⟨rfl, rfl⟩
        · rw [if_neg hxk] at hfx
          subst hfx
          exact absurd hbk hxk
      · rw [if_neg h] at hb
        rcases List.mem_append.mp hb with hmem | hmem
        · exact absurd hbk fun hk => h ⟨b, hmem, hk⟩
        · simp only [List.mem_singleton] at hmem
          subst hmem
          exact ⟨rfl, rfl⟩
    · intro hnone
      unfold upsertAttendance
      rw [if_neg fun hcon => by
        obtain ⟨x, hx, hk⟩ := hcon
        exact hnone x hx hk]

/-- Witness for C10: the request matches the stored Monday slot and the
handler runs the unconditional upsert loop. -/
theorem markAttendanceUnversioned_witness :
    markAttendance (fun _ => some { year := 2024, month := 10, day := 7 })
        50 attReq0 [slotA] [] =
      (attReq0.attendance.foldl
        (fun acc rec =>
          upsertAttendance acc rec.sbrn attReq0.subject attReq0.semester
            attReq0.«section» attReq0.date (if rec.present then 1 else 0)
            50)
        [], .saved) :=
  (markAttendanceUnversioned
    (fun _ => some { year := 2024, month := 10, day := 7 }) 50 attReq0
    [slotA] [] { year := 2024, month := 10, day := 7 } rfl).1 (by decide)

end AttendanceApi
